import Mathlib

/-!
Verification of the event-stream translation layer of `yai-nexus-agentkit`.

This file shallowly embeds the adapter core of the repository:

* `ToolCallTracker`   — `packages/agentkit/src/yai_nexus_agentkit/adapter/tool_call_tracker.py`
* `LangGraphEventType`— `packages/agentkit/src/yai_nexus_agentkit/adapter/langgraph_events.py`
* `translateEvent`    — `EventTranslator.translate_event` in
                        `packages/agentkit/src/yai_nexus_agentkit/adapter/event_translator.py`
* `sseTranslateEvent` — `AGUIAdapter._translate_event` in
                        `src/yai_nexus_agentkit/adapter/sse_advanced.py` (legacy variant)
* `streamEvents`      — `AGUIAdapter.stream_events` in
                        `packages/agentkit/src/yai_nexus_agentkit/adapter/agui_adapter.py`

Python dictionaries holding tool-call correlation state become association
lists with dictionary update/pop/get semantics; `uuid.uuid4().hex` becomes an
injective supply of non-empty identifiers drawn from a per-tracker counter;
`json.dumps(x, ensure_ascii=False)` becomes `jsonDumps`; raising Python code
returns `Except`.  Asynchronous generators become functions returning the list
of yielded protocol events (plus emitted log lines and the updated state):
within one run the adapter drives exactly one event at a time, so the
sequential model is faithful.
-/

/-- JSON-like values: the payloads carried in LangChain `astream_events`
dictionaries (tool inputs/outputs, custom-event bodies).  `null` corresponds
to Python `None`. -/
inductive Json where
  | null : Json
  | bool : Bool → Json
  | num : Int → Json
  | str : String → Json
  | arr : List Json → Json
  | obj : List (String × Json) → Json

/-- Hex digit (lower case), as produced by CPython's JSON encoder for
control-character escapes. -/
def hexDigit (n : Nat) : String :=
  if n = 0 then "0" else if n = 1 then "1" else if n = 2 then "2"
  else if n = 3 then "3" else if n = 4 then "4" else if n = 5 then "5"
  else if n = 6 then "6" else if n = 7 then "7" else if n = 8 then "8"
  else if n = 9 then "9" else if n = 10 then "a" else if n = 11 then "b"
  else if n = 12 then "c" else if n = 13 then "d" else if n = 14 then "e"
  else "f"

/-- Escape one character exactly as `json.dumps(..., ensure_ascii=False)`
does: only the two JSON metacharacters and control characters are escaped;
every other character — in particular every non-ASCII character — is emitted
literally. -/
def jsonEscapeChar (c : Char) : String :=
  if c = '"' then "\\\""
  else if c = '\\' then "\\\\"
  else if c = '\n' then "\\n"
  else if c = '\t' then "\\t"
  else if c = '\r' then "\\r"
  else if c.toNat = 8 then "\\b"
  else if c.toNat = 12 then "\\f"
  else if c.toNat < 32 then
    "\\u00" ++ hexDigit (c.toNat / 16) ++ hexDigit (c.toNat % 16)
  else String.singleton c

def jsonEscape (s : String) : String :=
  String.join (s.toList.map jsonEscapeChar)

/-- `json.dumps(v, ensure_ascii=False)` with CPython's default separators
`", "` and `": "` (the call sites in `event_translator.py` pass no
`separators`/`indent` arguments). -/
def jsonDumps : Json → String
  | .null => "null"
  | .bool b => if b then "true" else "false"
  | .num n => toString n
  | .str s => "\"" ++ jsonEscape s ++ "\""
  | .arr xs =>
    "[" ++ String.intercalate ", " (xs.attach.map (fun x => jsonDumps x.1)) ++ "]"
  | .obj kvs =>
    "\x7b" ++
      String.intercalate ", "
        (kvs.attach.map (fun p => "\"" ++ jsonEscape p.1.1 ++ "\": " ++ jsonDumps p.1.2)) ++
      "\x7d"
decreasing_by
  · simp_wf
    have := List.sizeOf_lt_of_mem x.2
    omega
  · simp_wf
    obtain ⟨⟨k, v⟩, hp⟩ := p
    have := List.sizeOf_lt_of_mem hp
    simp at this ⊢
    omega

/-- Python representation of a JSON-like value as `repr`/`str` would print it
inside a dictionary (`None`/`True`/`False`, single-quoted strings).  Used only
to model the `str(event.get("data", {}))` diagnostic preview. -/
def pyReprJson : Json → String
  | .null => "None"
  | .bool b => if b then "True" else "False"
  | .num n => toString n
  | .str s => "\x27" ++ s ++ "\x27"
  | .arr xs =>
    "[" ++ String.intercalate ", " (xs.attach.map (fun x => pyReprJson x.1)) ++ "]"
  | .obj kvs =>
    "\x7b" ++
      String.intercalate ", "
        (kvs.attach.map (fun p => "\x27" ++ p.1.1 ++ "\x27: " ++ pyReprJson p.1.2)) ++
      "\x7d"
decreasing_by
  · simp_wf
    have := List.sizeOf_lt_of_mem x.2
    omega
  · simp_wf
    obtain ⟨⟨k, v⟩, hp⟩ := p
    have := List.sizeOf_lt_of_mem hp
    simp at this ⊢
    omega

/-- A chat-model stream chunk: the `chunk` value inside the data of an
`on_chat_model_stream` event is a message-chunk object carrying a `content`
attribute (the `hasattr(chunk, "content")` check always succeeds on it). -/
structure Chunk where
  content : String

/-- The `data` dictionary of a raw LangChain `astream_events` event.  Each
field models one key the translator reads with `.get`; `none` models an
absent key.  `cname`/`payload` are the keys `"name"`/`"payload"` read by the
custom-event rule. -/
structure RawData where
  input : Option Json := none
  output : Option Json := none
  chunk : Option Chunk := none
  cname : Option Json := none
  payload : Option Json := none

def RawData.empty : RawData := {}

/-- One raw event from `agent.astream_events(...)`: a dictionary from which
the translator reads the `"event"` key (by subscript — raising `KeyError`
when absent), the top-level `"name"` key (with `.get`) and the `"data"`
dictionary (with `.get`, defaulting to the empty dictionary). -/
structure RawEvent where
  event : Option String := none
  name : Option String := none
  data : Option RawData := none

/-- Python `str(...)` of a chat-model chunk object inside a dict preview. -/
def pyReprChunk (c : Chunk) : String :=
  "AIMessageChunk(content=\x27" ++ c.content ++ "\x27)"

/-- Python `str(...)` of the (modelled) `data` dictionary, used for the
unknown-event diagnostic preview. -/
def pyReprData (d : RawData) : String :=
  let items :=
    (match d.input with | some j => ["\x27input\x27: " ++ pyReprJson j] | none => []) ++
    (match d.output with | some j => ["\x27output\x27: " ++ pyReprJson j] | none => []) ++
    (match d.chunk with | some c => ["\x27chunk\x27: " ++ pyReprChunk c] | none => []) ++
    (match d.cname with | some j => ["\x27name\x27: " ++ pyReprJson j] | none => []) ++
    (match d.payload with | some j => ["\x27payload\x27: " ++ pyReprJson j] | none => [])
  "\x7b" ++ String.intercalate ", " items ++ "\x7d"

/-- The slice-and-ellipsis truncation from `translate_event`:
`event_data_str[:100] + "..." if len(event_data_str) > 100 else event_data_str`.
Python slicing counts characters, hence the `toList`-based model. -/
def truncatePreview (s : String) : String :=
  if s.length > 100 then String.mk (s.toList.take 100) ++ "..." else s

/-- The log line of the unknown-kind branch of `translate_event`. -/
def unknownEventLog (kindStr : String) (ev : RawEvent) : String :=
  "Unknown event type: " ++ kindStr ++ ", data: " ++
    truncatePreview (pyReprData (ev.data.getD RawData.empty))

/-- `LangGraphEventType` from `langgraph_events.py`: the closed enumeration of
recognized upstream event kinds. -/
inductive LangGraphEventType where
  | onToolStart | onToolEnd
  | onChatModelStart | onChatModelStream | onChatModelEnd
  | onChainStart | onChainStream | onChainEnd
  | onNodeStart | onNodeEnd
  | onCustomEvent
  | onLlmStart | onLlmStream | onLlmEnd
  | onRetrieverStart | onRetrieverEnd
deriving DecidableEq

/-- Value lookup of the string enum, i.e. `LangGraphEventType(kind_str)`;
`none` models the `ValueError` branch. -/
def LangGraphEventType.ofString? (s : String) : Option LangGraphEventType :=
  if s = "on_tool_start" then some .onToolStart
  else if s = "on_tool_end" then some .onToolEnd
  else if s = "on_chat_model_start" then some .onChatModelStart
  else if s = "on_chat_model_stream" then some .onChatModelStream
  else if s = "on_chat_model_end" then some .onChatModelEnd
  else if s = "on_chain_start" then some .onChainStart
  else if s = "on_chain_stream" then some .onChainStream
  else if s = "on_chain_end" then some .onChainEnd
  else if s = "on_node_start" then some .onNodeStart
  else if s = "on_node_end" then some .onNodeEnd
  else if s = "on_custom_event" then some .onCustomEvent
  else if s = "on_llm_start" then some .onLlmStart
  else if s = "on_llm_stream" then some .onLlmStream
  else if s = "on_llm_end" then some .onLlmEnd
  else if s = "on_retriever_start" then some .onRetrieverStart
  else if s = "on_retriever_end" then some .onRetrieverEnd
  else none

/-- `_INTERNAL_EVENT_MARKER` from `core/events.py`. -/
def internalEventMarker : String := "agent_custom_event"

/-- Injective supply of non-empty opaque identifiers: the model of
`uuid.uuid4().hex` (a fresh 32-character hex string per call).  Freshness is
realized by drawing from the tracker's call counter. -/
def freshCallId (n : Nat) : String :=
  "uuid-" ++ String.mk (List.replicate n 'a')

/-- `ToolCallTracker` from `tool_call_tracker.py`: `active_calls` is the
`tool_name -> call_id` dictionary (association list with no duplicate keys in
any reachable state); `counter` feeds the fresh-identifier supply standing in
for `uuid.uuid4()`. -/
structure ToolCallTracker where
  activeCalls : List (String × String) := []
  counter : Nat := 0

def ToolCallTracker.init : ToolCallTracker := {}

/-- `start_call`: generate a fresh id and record `tool_name -> call_id`
(dictionary assignment: any previous binding of the same name is
overwritten). -/
def ToolCallTracker.startCall (tr : ToolCallTracker) (toolName : String) :
    String × ToolCallTracker :=
  let callId := freshCallId tr.counter
  (callId,
   { activeCalls := (toolName, callId) :: tr.activeCalls.filter (fun p => !(p.1 == toolName)),
     counter := tr.counter + 1 })

/-- `end_call`: `self.active_calls.pop(tool_name, None)` — remove and return
the binding if present, otherwise signal absence. -/
def ToolCallTracker.endCall (tr : ToolCallTracker) (toolName : String) :
    Option String × ToolCallTracker :=
  (tr.activeCalls.lookup toolName,
   { tr with activeCalls := tr.activeCalls.filter (fun p => !(p.1 == toolName)) })

/-- `get_call_id`: `self.active_calls.get(tool_name)`. -/
def ToolCallTracker.getCallId (tr : ToolCallTracker) (toolName : String) :
    Option String :=
  tr.activeCalls.lookup toolName

/-- The AG-UI protocol events produced by this layer (`ag_ui.core.events`),
restricted to the variants the adapter constructs.  `thinkingStarted none`
embeds `ThinkingTextMessageStartEvent` (which carries no title);
`thinkingStarted (some t)` embeds `ThinkingStartEvent(title=t)` as used by the
legacy `sse_advanced` translator. -/
inductive ProtocolEvent where
  | runStarted (threadId runId : String)
  | runFinished (threadId runId : String)
  | runError (message : String)
  | textChunk (delta : String)
  | toolCallStarted (toolCallId toolCallName : String)
  | toolCallArgs (toolCallId delta : String)
  | toolCallEnded (toolCallId : String)
  | toolCallResult (messageId toolCallId content : String)
  | stepStarted (name : String)
  | stepFinished (name : String)
  | thinkingStarted (title : Option String)
  | thinkingEnded
  | custom (name : Option Json) (value : Option Json)

/-- The Python exceptions the embedded code can raise.  `keyError` models
the dictionary subscript `event["event"]` on a dict without that key;
`eventTranslationError` models the adapter-specific exception class from
`errors.py` (declared and caught, though the current translator never raises
it); `typeError` models the `TypeError` that stdlib `logging` raises when a
call passes keyword arguments `Logger._log` does not accept. -/
inductive PyError where
  | keyError (key : String)
  | eventTranslationError (msg : String)
  | typeError (msg : String)
deriving DecidableEq

/-- Result of translating one raw event: the protocol events yielded, the log
lines emitted, and the updated tool-call tracker state. -/
abbrev TranslationOutput := List ProtocolEvent × List String × ToolCallTracker

/-- `EventTranslator._handle_tool_start`: tool name from the event's TOP-LEVEL
`name` field (default `"unknown"`), input from `data` (default empty dict),
then yield ToolCallStartEvent and ToolCallArgsEvent. -/
def handleToolStart (tr : ToolCallTracker) (ev : RawEvent) (eventData : RawData) :
    TranslationOutput :=
  let toolName := ev.name.getD "unknown"
  let toolInput := eventData.input.getD (Json.obj [])
  let res := tr.startCall toolName
  ([ProtocolEvent.toolCallStarted res.1 toolName,
    ProtocolEvent.toolCallArgs res.1 (jsonDumps toolInput)],
   [], res.2)

/-- The `content` of the ToolCallResultEvent:
`json.dumps(tool_output, ensure_ascii=False) if tool_output is not None else ""`.
Both an absent `output` key and a JSON `null` value are Python `None`. -/
def toolResultContent (output : Option Json) : String :=
  match output with
  | none => ""
  | some Json.null => ""
  | some out => jsonDumps out

/-- `EventTranslator._handle_tool_end`: pop the call id for the top-level
tool name; when the pop result is falsy (`None` — or an empty string, which
the id supply never produces) log a warning and yield nothing, otherwise
yield ToolCallEndEvent and ToolCallResultEvent (with `message_id = call_id`). -/
def handleToolEnd (tr : ToolCallTracker) (ev : RawEvent) (eventData : RawData) :
    TranslationOutput :=
  let toolName := ev.name.getD "unknown"
  let toolOutput := eventData.output
  let res := tr.endCall toolName
  match res.1 with
  | none => ([], ["No active call found for tool: " ++ toolName], res.2)
  | some callId =>
    if callId = "" then
      ([], ["No active call found for tool: " ++ toolName], res.2)
    else
      ([ProtocolEvent.toolCallEnded callId,
        ProtocolEvent.toolCallResult callId callId (toolResultContent toolOutput)],
       [], res.2)

/-- `EventTranslator._handle_chat_model_stream`: yield one text chunk iff the
data carries a chunk object with non-empty `content` (a present chunk object
is always truthy and always has the attribute). -/
def handleChatModelStream (tr : ToolCallTracker) (eventData : RawData) :
    TranslationOutput :=
  match eventData.chunk with
  | some c => if c.content = "" then ([], [], tr) else ([ProtocolEvent.textChunk c.content], [], tr)
  | none => ([], [], tr)

/-- `EventTranslator._handle_custom_event`: forward only events whose
TOP-LEVEL `name` equals the reserved internal marker, reading the protocol
event's `name` and `value` from inside the data dictionary. -/
def handleCustomEvent (tr : ToolCallTracker) (ev : RawEvent) (eventData : RawData) :
    TranslationOutput :=
  if ev.name = some internalEventMarker then
    ([ProtocolEvent.custom eventData.cname eventData.payload], [], tr)
  else
    ([], [], tr)

/-- `EventTranslator.translate_event` from
`packages/agentkit/src/yai_nexus_agentkit/adapter/event_translator.py`:
read `event["event"]` (KeyError when absent), classify through the enum
(unknown kinds: log a truncated preview, yield nothing), then dispatch; the
recognized kinds without a branch in the `if`/`elif` chain (chat-model
start/end, chain-stream, llm and retriever events) fall through and yield
nothing. -/
def translateEvent (tr : ToolCallTracker) (ev : RawEvent) :
    Except PyError TranslationOutput :=
  match ev.event with
  | none => Except.error (PyError.keyError "event")
  | some kindStr =>
    match LangGraphEventType.ofString? kindStr with
    | none => Except.ok ([], [unknownEventLog kindStr ev], tr)
    | some kind =>
      let eventData := ev.data.getD RawData.empty
      match kind with
      | .onToolStart => Except.ok (handleToolStart tr ev eventData)
      | .onToolEnd => Except.ok (handleToolEnd tr ev eventData)
      | .onChatModelStream => Except.ok (handleChatModelStream tr eventData)
      | .onChainStart => Except.ok ([ProtocolEvent.thinkingStarted none], [], tr)
      | .onChainEnd => Except.ok ([ProtocolEvent.thinkingEnded], [], tr)
      | .onNodeStart => Except.ok ([ProtocolEvent.stepStarted (ev.name.getD "Unknown")], [], tr)
      | .onNodeEnd => Except.ok ([ProtocolEvent.stepFinished (ev.name.getD "Unknown")], [], tr)
      | .onCustomEvent => Except.ok (handleCustomEvent tr ev eventData)
      | _ => Except.ok ([], [], tr)

/-- `AGUIAdapter._translate_event` from
`src/yai_nexus_agentkit/adapter/sse_advanced.py` (the legacy in-repo variant
of the translator; its tracker is passed in by the caller).  Its per-kind
logic is character-for-character the same as `EventTranslator`, except the
chain-start rule: it yields `ThinkingStartEvent(title=event.get("name",
"Unknown"))`. -/
def sseTranslateEvent (tr : ToolCallTracker) (ev : RawEvent) :
    Except PyError TranslationOutput :=
  match ev.event with
  | none => Except.error (PyError.keyError "event")
  | some kindStr =>
    match LangGraphEventType.ofString? kindStr with
    | none => Except.ok ([], [unknownEventLog kindStr ev], tr)
    | some kind =>
      let eventData := ev.data.getD RawData.empty
      match kind with
      | .onToolStart => Except.ok (handleToolStart tr ev eventData)
      | .onToolEnd => Except.ok (handleToolEnd tr ev eventData)
      | .onChatModelStream => Except.ok (handleChatModelStream tr eventData)
      | .onChainStart =>
        Except.ok ([ProtocolEvent.thinkingStarted (some (ev.name.getD "Unknown"))], [], tr)
      | .onChainEnd => Except.ok ([ProtocolEvent.thinkingEnded], [], tr)
      | .onNodeStart => Except.ok ([ProtocolEvent.stepStarted (ev.name.getD "Unknown")], [], tr)
      | .onNodeEnd => Except.ok ([ProtocolEvent.stepFinished (ev.name.getD "Unknown")], [], tr)
      | .onCustomEvent => Except.ok (handleCustomEvent tr ev eventData)
      | _ => Except.ok ([], [], tr)

/-- The `Task` pydantic model from `adapter/models.py` (named `AgentTask`
here only because `Task` is taken by the Lean core library). -/
structure AgentTask where
  id : String
  query : String
  threadId : Option String := none

/-- Pydantic field validation of `Task`: `id` and `query` are required with
`min_length=1` (and bounded length), `thread_id` is optional but, when
supplied, validated with `min_length=1`. -/
def AgentTask.valid (t : AgentTask) : Prop :=
  1 ≤ t.id.length ∧ t.id.length ≤ 100 ∧
  1 ≤ t.query.length ∧ t.query.length ≤ 10000 ∧
  ∀ s, t.threadId = some s → 1 ≤ s.length ∧ s.length ≤ 100

/-- `effective_thread_id = task.thread_id if task.thread_id else task.id`
(Python truthiness: `None` and the empty string both fall back to the id). -/
def effectiveThreadId (t : AgentTask) : String :=
  match t.threadId with
  | some s => if s = "" then t.id else s
  | none => t.id

/-- Stdlib-logging model for `agui_adapter.py` (which obtains its logger via
`logging.getLogger(__name__)`), at the default configuration (root level
WARNING): the adapter's `logger.info("...", key=value, ...)` calls are
filtered out before argument processing (INFO is disabled), its
`logger.warning(f"...")` calls take no custom kwargs and succeed, and its two
`logger.exception("...", key=value, ...)` calls log at ERROR — which IS
enabled — so `Logger._log` receives keyword arguments it does not accept
(`error_type`/`error_message` in the per-event handler at lines 105-110,
`task_id`/... in the outer handler at lines 132-138) and raises `TypeError`.
These two constants are those exceptions. -/
def innerHandlerTypeError : PyError :=
  PyError.typeError "_log() got an unexpected keyword argument \x27error_type\x27"

def outerHandlerTypeError : PyError :=
  PyError.typeError "_log() got an unexpected keyword argument \x27task_id\x27"

/-- The per-event loop of `AGUIAdapter.stream_events` under the stdlib
logging model: a raw event that translates normally has its protocol events
forwarded in order; an `EventTranslationError` is logged with a plain
f-string warning and the event skipped (`continue`); any other exception
reaches the `except Exception` handler, whose own `logger.exception(...,
error_type=..., error_message=...)` call raises `TypeError` — aborting the
loop instead of continuing.  Returns the events forwarded before any abort,
the tracker state, and the aborting exception if one occurred. -/
def processEvents (tr : ToolCallTracker) :
    List RawEvent → List ProtocolEvent × ToolCallTracker × Option PyError
  | [] => ([], tr, none)
  | ev :: rest =>
    match translateEvent tr ev with
    | Except.error (PyError.eventTranslationError _) => processEvents tr rest
    | Except.error _ => ([], tr, some innerHandlerTypeError)
    | Except.ok (outs, _, tr') =>
      let res := processEvents tr' rest
      (outs ++ res.1, res.2)

/-- The same loop, keeping the output of every raw event as its own block
(used to state per-event correspondence properties; flattening the blocks
recovers `processEvents`). -/
def translateBlocks (tr : ToolCallTracker) : List RawEvent → List (RawEvent × List ProtocolEvent)
  | [] => []
  | ev :: rest =>
    match translateEvent tr ev with
    | Except.error _ => (ev, []) :: translateBlocks tr rest
    | Except.ok (outs, _, tr') => (ev, outs) :: translateBlocks tr' rest

/-- How one run of `AGUIAdapter.stream_events` terminates: the stream is
either closed normally after its RunFinishedEvent, or the generator dies on
an uncaught exception, emitting no terminal protocol event at all. -/
inductive RunOutcome where
  | finished : RunOutcome
  | crashed : PyError → RunOutcome
deriving DecidableEq

/-- `AGUIAdapter.stream_events` from `agui_adapter.py` for one run, under the
stdlib logging model, with the upstream `astream_events` iteration modelled
as: it yields the raw events of `upstream` in order and then either completes
normally (`upstreamError = none`) or raises an exception whose `str(e)` is
`msg` (`upstreamError = some msg`).  The adapter yields RunStartedEvent
first and drives every raw event through a fresh `EventTranslator`.  On a
normal pass it closes with exactly one RunFinishedEvent.  If the per-event
loop aborts (its `except Exception` handler raising `TypeError`), the outer
`except Exception` catches that `TypeError` but its own
`logger.exception("AGUIAdapter error", task_id=..., ...)` raises `TypeError`
again at line 133, BEFORE `yield run_error` at line 146 — likewise when the
upstream iteration itself raises.  In both cases the generator dies with no
RunErrorEvent: the emitted sequence simply stops. -/
def streamEvents (task : AgentTask) (upstream : List RawEvent) (upstreamError : Option String) :
    List ProtocolEvent × RunOutcome :=
  let eff := effectiveThreadId task
  let res := processEvents ToolCallTracker.init upstream
  match res.2.2 with
  | some _ =>
    (ProtocolEvent.runStarted eff task.id :: res.1,
     RunOutcome.crashed outerHandlerTypeError)
  | none =>
    match upstreamError with
    | some _ =>
      (ProtocolEvent.runStarted eff task.id :: res.1,
       RunOutcome.crashed outerHandlerTypeError)
    | none =>
      (ProtocolEvent.runStarted eff task.id ::
        (res.1 ++ [ProtocolEvent.runFinished eff task.id]),
       RunOutcome.finished)

/-! ### Helper lemmas about the association-list dictionary model -/

theorem mem_of_lookup_eq_some : ∀ {l : List (String × String)} {k v : String},
    l.lookup k = some v → (k, v) ∈ l := by
  intro l
  induction l with
  | nil => intro k v h; simp [List.lookup] at h
  | cons a t ih =>
    intro k v h
    obtain ⟨k1, v1⟩ := a
    simp only [List.lookup] at h
    by_cases hk : k = k1
    · subst hk
      simp at h
      subst h
      exact List.mem_cons_self _ _
    · rw [beq_false_of_ne hk] at h
      exact List.mem_cons_of_mem _ (ih h)

theorem filter_ne_eq_self {l : List (String × String)} {k : String}
    (h : ∀ p ∈ l, p.1 ≠ k) : l.filter (fun p => !(p.1 == k)) = l := by
  induction l with
  | nil => rfl
  | cons a t ih =>
    have ha : a.1 ≠ k := h a (List.mem_cons_self _ _)
    simp only [List.filter_cons, beq_false_of_ne ha, Bool.not_false, if_true]
    rw [ih (fun p hp => h p (List.mem_cons_of_mem _ hp))]

theorem lookup_eq_none_forall : ∀ {l : List (String × String)} {k : String},
    l.lookup k = none → ∀ p ∈ l, p.1 ≠ k := by
  intro l
  induction l with
  | nil => intro k _ p hp; simp at hp
  | cons a t ih =>
    intro k h p hp
    obtain ⟨k1, v1⟩ := a
    simp only [List.lookup] at h
    rw [List.mem_cons] at hp
    by_cases hk : k = k1
    · subst hk; simp at h
    · rw [beq_false_of_ne hk] at h
      rcases hp with hp | hp
      · subst hp; exact fun he => hk he.symm
      · exact ih h p hp

theorem lookup_filter_ne {l : List (String × String)} {k : String} :
    (l.filter (fun p => !(p.1 == k))).lookup k = none := by
  induction l with
  | nil => rfl
  | cons a t ih =>
    obtain ⟨k1, v1⟩ := a
    by_cases hk : k1 = k
    · subst hk
      simpa using ih
    · simp only [List.filter_cons, beq_false_of_ne hk, Bool.not_false, if_true,
        List.lookup, beq_false_of_ne (fun he => hk he.symm)]
      exact ih

theorem lookup_filter_of_ne {l : List (String × String)} {k k' : String}
    (h : k' ≠ k) : (l.filter (fun p => !(p.1 == k))).lookup k' = l.lookup k' := by
  induction l with
  | nil => rfl
  | cons a t ih =>
    obtain ⟨k1, v1⟩ := a
    by_cases hk : k1 = k
    · subst hk
      simp only [List.filter_cons, beq_self_eq_true, Bool.not_true, if_false,
        List.lookup, beq_false_of_ne h]
      exact ih
    · simp only [List.filter_cons, beq_false_of_ne hk, Bool.not_false, if_true,
        List.lookup]
      by_cases hk' : k' = k1
      · subst hk'; simp
      · rw [beq_false_of_ne hk']
        exact ih

theorem keys_nodup_mem_unique {l : List (String × String)} {k a b : String}
    (hnd : (l.map Prod.fst).Nodup) (ha : (k, a) ∈ l) (hb : (k, b) ∈ l) : a = b := by
  induction l with
  | nil => simp at ha
  | cons p t ih =>
    simp only [List.map_cons, List.nodup_cons] at hnd
    rw [List.mem_cons] at ha hb
    rcases ha with ha | ha <;> rcases hb with hb | hb
    · rw [← ha] at hb
      exact (congrArg Prod.snd hb).symm
    · exfalso
      apply hnd.1
      rw [← ha]
      show k ∈ t.map Prod.fst
      exact List.mem_map_of_mem Prod.fst hb
    · exfalso
      apply hnd.1
      rw [← hb]
      show k ∈ t.map Prod.fst
      exact List.mem_map_of_mem Prod.fst ha
    · exact ih hnd.2 ha hb

theorem freshCallId_data (n : Nat) :
    (freshCallId n).data = "uuid-".data ++ List.replicate n 'a' := by
  simp [freshCallId, String.data_append]

theorem freshCallId_injective : Function.Injective freshCallId := by
  intro m n h
  have hd := congrArg String.data h
  rw [freshCallId_data, freshCallId_data] at hd
  have := List.append_cancel_left hd
  have hlen := congrArg List.length this
  simpa using hlen

theorem freshCallId_ne_empty (n : Nat) : freshCallId n ≠ "" := by
  intro h
  have hd := congrArg String.data h
  rw [freshCallId_data] at hd
  simp at hd

/-! ### Structural lemmas about the translator and the adapter loop -/

/-- Run lifecycle events: the three protocol events only the Stream Adapter
itself may emit. -/
def isLifecycleEvent : ProtocolEvent → Bool
  | .runStarted _ _ => true
  | .runFinished _ _ => true
  | .runError _ => true
  | _ => false

/-- No per-event translation rule ever yields a run lifecycle event. -/
theorem handleToolStart_no_lifecycle (tr : ToolCallTracker) (ev : RawEvent) (d : RawData) :
    ∀ e ∈ (handleToolStart tr ev d).1, isLifecycleEvent e = false := by
  intro e he
  simp only [handleToolStart, List.mem_cons, List.not_mem_nil, or_false] at he
  rcases he with rfl | rfl <;> rfl

theorem handleToolEnd_no_lifecycle (tr : ToolCallTracker) (ev : RawEvent) (d : RawData) :
    ∀ e ∈ (handleToolEnd tr ev d).1, isLifecycleEvent e = false := by
  intro e he
  simp only [handleToolEnd] at he
  rcases h1 : (tr.endCall (ev.name.getD "unknown")).1 with _ | cid <;>
    rw [h1] at he <;> dsimp only at he
  · simp at he
  · by_cases hc : cid = ""
    · rw [if_pos hc] at he; simp at he
    · rw [if_neg hc] at he
      simp only [List.mem_cons, List.not_mem_nil, or_false] at he
      rcases he with rfl | rfl <;> rfl

theorem handleChatModelStream_no_lifecycle (tr : ToolCallTracker) (d : RawData) :
    ∀ e ∈ (handleChatModelStream tr d).1, isLifecycleEvent e = false := by
  intro e he
  simp only [handleChatModelStream] at he
  rcases h1 : d.chunk with _ | c <;> rw [h1] at he <;> dsimp only at he
  · simp at he
  · by_cases hc : c.content = ""
    · rw [if_pos hc] at he; simp at he
    · rw [if_neg hc] at he
      simp only [List.mem_cons, List.not_mem_nil, or_false] at he
      rcases he with rfl <;> rfl

theorem handleCustomEvent_no_lifecycle (tr : ToolCallTracker) (ev : RawEvent) (d : RawData) :
    ∀ e ∈ (handleCustomEvent tr ev d).1, isLifecycleEvent e = false := by
  intro e he
  simp only [handleCustomEvent] at he
  by_cases hn : ev.name = some internalEventMarker
  · rw [if_pos hn] at he
    simp only [List.mem_cons, List.not_mem_nil, or_false] at he
    rcases he with rfl <;> rfl
  · rw [if_neg hn] at he; simp at he

theorem translateEvent_no_lifecycle {tr : ToolCallTracker} {ev : RawEvent}
    {res : TranslationOutput} (h : translateEvent tr ev = Except.ok res) :
    ∀ e ∈ res.1, isLifecycleEvent e = false := by
  unfold translateEvent at h
  rcases hev : ev.event with _ | kindStr <;> rw [hev] at h <;> dsimp only at h
  · simp at h
  · rcases hof : LangGraphEventType.ofString? kindStr with _ | kind <;>
      rw [hof] at h <;> dsimp only at h
    · injection h with h
      subst h
      simp
    · rcases kind <;> (injection h with h; subst h)
      case onToolStart => exact handleToolStart_no_lifecycle _ _ _
      case onToolEnd => exact handleToolEnd_no_lifecycle _ _ _
      case onChatModelStream => exact handleChatModelStream_no_lifecycle _ _
      case onCustomEvent => exact handleCustomEvent_no_lifecycle _ _ _
      all_goals (intro e he; simp only [List.mem_cons, List.not_mem_nil, or_false] at he)
      all_goals first
        | (rcases he with rfl <;> rfl)
        | simp at he

theorem processEvents_cons_ok {tr tr' : ToolCallTracker} {ev : RawEvent}
    {outs : List ProtocolEvent} {logs : List String} (rest : List RawEvent)
    (h : translateEvent tr ev = Except.ok (outs, logs, tr')) :
    processEvents tr (ev :: rest) =
      (outs ++ (processEvents tr' rest).1, (processEvents tr' rest).2) := by
  simp only [processEvents, h]

/-- An `EventTranslationError` is caught by the first `except` clause, whose
`logger.warning(f"...")` takes no custom kwargs and succeeds, so the event is
skipped and the loop continues (the current translator never actually raises
this class, but the branch is in the source). -/
theorem processEvents_cons_skip {tr : ToolCallTracker} {ev : RawEvent} {m : String}
    (rest : List RawEvent)
    (h : translateEvent tr ev = Except.error (PyError.eventTranslationError m)) :
    processEvents tr (ev :: rest) = processEvents tr rest := by
  simp only [processEvents, h]

/-- Any other exception (here the `KeyError` from `event["event"]`) reaches
the `except Exception` handler, whose `logger.exception` call raises
`TypeError`: the loop aborts, dropping the rest of the upstream events. -/
theorem processEvents_cons_abort {tr : ToolCallTracker} {ev : RawEvent} {k : String}
    (rest : List RawEvent)
    (h : translateEvent tr ev = Except.error (PyError.keyError k)) :
    processEvents tr (ev :: rest) = ([], tr, some innerHandlerTypeError) := by
  simp only [processEvents, h]

/-- With pydantic validation in force (`thread_id` is `None` or non-empty),
the truthiness fallback coincides with option-defaulting. -/
theorem effectiveThreadId_eq_getD {task : AgentTask} (hvalid : task.valid) :
    effectiveThreadId task = task.threadId.getD task.id := by
  unfold effectiveThreadId
  rcases ht : task.threadId with _ | s <;> dsimp only
  · rfl
  · have h1 := (hvalid.2.2.2.2 s ht).1
    have hs : s ≠ "" := by
      intro h0
      rw [h0] at h1
      simp [String.length] at h1
    rw [if_neg hs]
    rfl

theorem translateEvent_missing_kind {ev : RawEvent} (h : ev.event = none)
    (tr : ToolCallTracker) :
    translateEvent tr ev = Except.error (PyError.keyError "event") := by
  unfold translateEvent
  rw [h]

/-- **C1** (envelope invariant) names a code bug.  On normal completion the
envelope holds: run-started first, run-finished last (first conjunct).  But
when the upstream stream raises, the outer `except Exception` handler calls
`logger.exception("AGUIAdapter error", task_id=..., ...)` on the stdlib
logger (agui_adapter.py line 133), which raises `TypeError` from the
unsupported keyword arguments BEFORE `yield run_error` (line 146): the
generator dies and the last emitted protocol event is the last translated
event — neither run-finished nor run-error (second conjunct). -/
theorem C1_run_envelope_bug :
    streamEvents { id := "r", query := "q" } [{ event := some "on_chain_end" }] none =
      ([ProtocolEvent.runStarted "r" "r", ProtocolEvent.thinkingEnded,
        ProtocolEvent.runFinished "r" "r"], RunOutcome.finished) ∧
    streamEvents { id := "r", query := "q" } [{ event := some "on_chain_end" }]
        (some "ConnectionLost") =
      ([ProtocolEvent.runStarted "r" "r", ProtocolEvent.thinkingEnded],
       RunOutcome.crashed outerHandlerTypeError) :=
  ⟨rfl, rfl⟩

/-- The translator's orphan tool-end path: warning, zero events, state
unchanged. -/
theorem translateEvent_orphan_end (tr : ToolCallTracker) {ev : RawEvent}
    (hkind : ev.event = some "on_tool_end")
    (horphan : tr.getCallId (ev.name.getD "unknown") = none) :
    translateEvent tr ev =
      Except.ok ([], ["No active call found for tool: " ++ ev.name.getD "unknown"], tr) := by
  unfold translateEvent
  rw [hkind]
  dsimp only
  rw [show LangGraphEventType.ofString? "on_tool_end" = some LangGraphEventType.onToolEnd
      from rfl]
  dsimp only
  simp only [handleToolEnd, ToolCallTracker.endCall]
  rw [show tr.activeCalls.lookup (ev.name.getD "unknown") = none from horphan]
  rw [filter_ne_eq_self (lookup_eq_none_forall horphan)]

/-- **C5** (orphan tool-end is silent).  A tool-end raw event whose tool name
has no open tool-start yields zero protocol events — only the warning log
line — and leaves the translator state unchanged; the adapter loop forwards
nothing for it and continues with the rest of the run unchanged (so the event
never terminates the run), and a run consisting of it alone still ends with
run-finished. -/
theorem C5_orphan_tool_end (tr : ToolCallTracker) (ev : RawEvent)
    (hkind : ev.event = some "on_tool_end")
    (horphan : tr.getCallId (ev.name.getD "unknown") = none) :
    translateEvent tr ev =
      Except.ok ([], ["No active call found for tool: " ++ ev.name.getD "unknown"], tr) ∧
    (∀ rest, processEvents tr (ev :: rest) = processEvents tr rest) ∧
    (∀ task : AgentTask, streamEvents task [ev] none =
      ([ProtocolEvent.runStarted (effectiveThreadId task) task.id,
        ProtocolEvent.runFinished (effectiveThreadId task) task.id],
       RunOutcome.finished)) := by
  have h1 := translateEvent_orphan_end tr hkind horphan
  refine ⟨h1, ?_, ?_⟩
  · intro rest
    rw [processEvents_cons_ok rest h1]
    rfl
  · intro task
    have h0 := translateEvent_orphan_end ToolCallTracker.init hkind rfl
    have hPE : processEvents ToolCallTracker.init [ev] =
        ([], ToolCallTracker.init, none) := by
      rw [processEvents_cons_ok [] h0]
      rfl
    simp only [streamEvents, hPE]
    rfl

/-- Witness for C5: an orphan `on_tool_end` for tool "ghost" against the
fresh tracker; spec scenario 3 as the whole-run half. -/
theorem C5_orphan_tool_end_witness :
    ToolCallTracker.init.getCallId "ghost" = none ∧
    translateEvent ToolCallTracker.init
        { event := some "on_tool_end", name := some "ghost" } =
      Except.ok ([], ["No active call found for tool: ghost"], ToolCallTracker.init) ∧
    streamEvents { id := "r", query := "q" }
        [{ event := some "on_tool_end", name := some "ghost" }] none =
      ([ProtocolEvent.runStarted "r" "r", ProtocolEvent.runFinished "r" "r"],
       RunOutcome.finished) := by
  have h := C5_orphan_tool_end ToolCallTracker.init
    { event := some "on_tool_end", name := some "ghost" } rfl rfl
  exact ⟨rfl, h.1, h.2.2 { id := "r", query := "q" }⟩

theorem truncatePreview_length_le (s : String) : (truncatePreview s).length ≤ 103 := by
  unfold truncatePreview
  by_cases h : s.length > 100
  · rw [if_pos h, String.length_append, String.length_mk, List.length_take]
    have h3 : ("..." : String).length = 3 := by decide
    rw [h3]
    omega
  · rw [if_neg h]
    omega

/-- The translator's unknown-kind path: log, zero events, state unchanged. -/
theorem translateEvent_unknown_kind (tr : ToolCallTracker) {ev : RawEvent} {k : String}
    (hk : ev.event = some k)
    (hunk : LangGraphEventType.ofString? k = none) :
    translateEvent tr ev = Except.ok ([], [unknownEventLog k ev], tr) := by
  unfold translateEvent
  rw [hk]
  dsimp only
  rw [hunk]

/-- **C6** (unknown kind is silent).  A raw event whose kind string is not in
the recognized enumeration never raises: the translator returns normally with
zero protocol events and unchanged state, logging the kind together with a
payload preview truncated to at most 103 characters; the adapter loop
forwards nothing for it and continues with the rest of the run unchanged (so
the event never terminates the run), and a run consisting of it alone still
ends with run-finished. -/
theorem C6_unknown_kind (tr : ToolCallTracker) (ev : RawEvent) (k : String)
    (hk : ev.event = some k)
    (hunk : LangGraphEventType.ofString? k = none) :
    translateEvent tr ev = Except.ok ([], [unknownEventLog k ev], tr) ∧
    unknownEventLog k ev =
      "Unknown event type: " ++ k ++ ", data: " ++
        truncatePreview (pyReprData (ev.data.getD RawData.empty)) ∧
    (truncatePreview (pyReprData (ev.data.getD RawData.empty))).length ≤ 103 ∧
    (∀ rest, processEvents tr (ev :: rest) = processEvents tr rest) ∧
    (∀ task : AgentTask, streamEvents task [ev] none =
      ([ProtocolEvent.runStarted (effectiveThreadId task) task.id,
        ProtocolEvent.runFinished (effectiveThreadId task) task.id],
       RunOutcome.finished)) := by
  refine ⟨translateEvent_unknown_kind tr hk hunk, rfl, truncatePreview_length_le _, ?_, ?_⟩
  · intro rest
    rw [processEvents_cons_ok rest (translateEvent_unknown_kind tr hk hunk)]
    rfl
  · intro task
    have hPE : processEvents ToolCallTracker.init [ev] =
        ([], ToolCallTracker.init, none) := by
      rw [processEvents_cons_ok []
        (translateEvent_unknown_kind ToolCallTracker.init hk hunk)]
      rfl
    simp only [streamEvents, hPE]
    rfl

/-- Witness for C6: the unrecognized kind "bogus_kind". -/
theorem C6_unknown_kind_witness :
    LangGraphEventType.ofString? "bogus_kind" = none ∧
    translateEvent ToolCallTracker.init { event := some "bogus_kind" } =
      Except.ok ([], [unknownEventLog "bogus_kind" { event := some "bogus_kind" }],
        ToolCallTracker.init) ∧
    streamEvents { id := "r", query := "q" } [{ event := some "bogus_kind" }] none =
      ([ProtocolEvent.runStarted "r" "r", ProtocolEvent.runFinished "r" "r"],
       RunOutcome.finished) := by
  have h := C6_unknown_kind ToolCallTracker.init { event := some "bogus_kind" }
    "bogus_kind" rfl rfl
  exact ⟨rfl, h.1, h.2.2.2.2 { id := "r", query := "q" }⟩

/-- **C7** names a code bug.  The claim — per-event translation exceptions
are caught, logged and skipped, and a run containing them still ends with
run-finished — matches the spec and the source's intent, but the
`except Exception` handler (agui_adapter.py lines 105-110) itself calls
`logger.exception(..., error_type=..., error_message=...)` on the stdlib
logger, raising `TypeError` (ERROR logging is enabled by default), so a
generic translation exception terminates the run.  Demonstration: the raw
event dict without an "event" key raises `KeyError`; the per-event loop then
aborts — the following chain-end event is never processed — and the run
crashes after run-started with no run-finished. -/
theorem C7_translation_exception_crashes :
    translateEvent ToolCallTracker.init { event := none, name := some "x" } =
      Except.error (PyError.keyError "event") ∧
    processEvents ToolCallTracker.init
        [{ event := none, name := some "x" }, { event := some "on_chain_end" }] =
      ([], ToolCallTracker.init, some innerHandlerTypeError) ∧
    streamEvents { id := "r", query := "q" }
        [{ event := none, name := some "x" }, { event := some "on_chain_end" }] none =
      ([ProtocolEvent.runStarted "r" "r"], RunOutcome.crashed outerHandlerTypeError) :=
  ⟨rfl, rfl, rfl⟩

/-- Reachable-state invariant of the tracker: every tracked call id was
issued by the fresh-id supply at an earlier counter value.  It holds in the
initial state and is preserved by `startCall`/`endCall`; in the source the
ids are `uuid4().hex` digests — in particular never the empty string. -/
def ToolCallTracker.wf (tr : ToolCallTracker) : Prop :=
  ∀ p ∈ tr.activeCalls, ∃ m, m < tr.counter ∧ p.2 = freshCallId m

theorem ToolCallTracker.init_wf : ToolCallTracker.init.wf := by
  intro p hp
  simp [ToolCallTracker.init] at hp

theorem ToolCallTracker.startCall_wf {tr : ToolCallTracker} (hwf : tr.wf) (n : String) :
    (tr.startCall n).2.wf := by
  intro p hp
  simp only [ToolCallTracker.startCall, List.mem_cons] at hp
  rcases hp with rfl | hp
  · exact ⟨tr.counter, Nat.lt_succ_self _, rfl⟩
  · obtain ⟨m, hm, he⟩ := hwf p (List.mem_of_mem_filter hp)
    exact ⟨m, Nat.lt_succ_of_lt hm, he⟩

theorem ToolCallTracker.endCall_wf {tr : ToolCallTracker} (hwf : tr.wf) (n : String) :
    (tr.endCall n).2.wf := by
  intro p hp
  simp only [ToolCallTracker.endCall] at hp
  exact hwf p (List.mem_of_mem_filter hp)

theorem ToolCallTracker.wf_ne_empty {tr : ToolCallTracker} (hwf : tr.wf)
    {n cid : String} (h : tr.getCallId n = some cid) : cid ≠ "" := by
  obtain ⟨m, -, he⟩ := hwf _ (mem_of_lookup_eq_some h)
  have he2 : cid = freshCallId m := he
  rw [he2]
  exact freshCallId_ne_empty m

/-- **C3** (tool event translation).  A tool-start raw event is translated by
reading the tool name from the event's TOP LEVEL (defaulting to "unknown"),
the input from the payload (defaulting to the empty object), and yields
exactly tool-call-started followed by tool-call-args whose delta is the JSON
serialization of the input; a tool-end whose name has an open call yields
exactly tool-call-ended followed by tool-call-result with `message_id =
call_id` and content "" for a null/absent output, else the serialized output.
The serializer leaves every printable non-ASCII character unescaped. -/
theorem C3_tool_event_translation (tr : ToolCallTracker) (ev : RawEvent) (hwf : tr.wf) :
    (ev.event = some "on_tool_start" →
      translateEvent tr ev =
        Except.ok
          ([ProtocolEvent.toolCallStarted (freshCallId tr.counter) (ev.name.getD "unknown"),
            ProtocolEvent.toolCallArgs (freshCallId tr.counter)
              (jsonDumps ((ev.data.getD RawData.empty).input.getD (Json.obj [])))],
           [], (tr.startCall (ev.name.getD "unknown")).2)) ∧
    (∀ cid, ev.event = some "on_tool_end" →
      tr.getCallId (ev.name.getD "unknown") = some cid →
      translateEvent tr ev =
        Except.ok
          ([ProtocolEvent.toolCallEnded cid,
            ProtocolEvent.toolCallResult cid cid
              (toolResultContent ((ev.data.getD RawData.empty).output))],
           [], (tr.endCall (ev.name.getD "unknown")).2)) ∧
    (toolResultContent none = "" ∧ toolResultContent (some Json.null) = "" ∧
      ∀ j, j ≠ Json.null → toolResultContent (some j) = jsonDumps j) ∧
    (∀ c : Char, c ≠ '"' → c ≠ '\\' → 32 ≤ c.toNat →
      jsonEscapeChar c = String.singleton c) := by
  refine ⟨?_, ?_, ⟨rfl, rfl, ?_⟩, ?_⟩
  · intro hk
    unfold translateEvent
    rw [hk]
    dsimp only
    rw [show LangGraphEventType.ofString? "on_tool_start" =
      some LangGraphEventType.onToolStart from rfl]
    dsimp only
    rfl
  · intro cid hk hcid
    unfold translateEvent
    rw [hk]
    dsimp only
    rw [show LangGraphEventType.ofString? "on_tool_end" =
      some LangGraphEventType.onToolEnd from rfl]
    dsimp only
    simp only [handleToolEnd, ToolCallTracker.endCall]
    rw [show tr.activeCalls.lookup (ev.name.getD "unknown") = some cid from hcid]
    dsimp only
    rw [if_neg (ToolCallTracker.wf_ne_empty hwf hcid)]
  · intro j hj
    cases j <;> first | rfl | exact absurd rfl hj
  · intro c h1 h2 h3
    have hn : c ≠ '\n' := by rintro rfl; exact absurd h3 (by decide)
    have ht : c ≠ '\t' := by rintro rfl; exact absurd h3 (by decide)
    have hr : c ≠ '\r' := by rintro rfl; exact absurd h3 (by decide)
    have h8 : ¬ c.toNat = 8 := by omega
    have h12 : ¬ c.toNat = 12 := by omega
    have hlt : ¬ c.toNat < 32 := by omega
    unfold jsonEscapeChar
    rw [if_neg h1, if_neg h2, if_neg hn, if_neg ht, if_neg hr, if_neg h8,
      if_neg h12, if_neg hlt]

/-- Witness for C3: a concrete tool-start for "search" and the matched
tool-end against the state it creates. -/
theorem C3_tool_event_translation_witness :
    ToolCallTracker.init.wf ∧
    translateEvent ToolCallTracker.init
        { event := some "on_tool_start", name := some "search",
          data := some { input := some (Json.obj [("q", Json.str "x")]) } } =
      Except.ok
        ([ProtocolEvent.toolCallStarted (freshCallId 0) "search",
          ProtocolEvent.toolCallArgs (freshCallId 0)
            (jsonDumps (Json.obj [("q", Json.str "x")]))],
         [], (ToolCallTracker.init.startCall "search").2) := by
  refine ⟨ToolCallTracker.init_wf, ?_⟩
  have h := (C3_tool_event_translation ToolCallTracker.init
    { event := some "on_tool_start", name := some "search",
      data := some { input := some (Json.obj [("q", Json.str "x")]) } }
    ToolCallTracker.init_wf).1 rfl
  exact h

/-- **C8** (custom-event gating).  A custom-event raw event is forwarded iff
its TOP-LEVEL name equals the reserved internal marker
`"agent_custom_event"`; in that case exactly one custom protocol event is
emitted, with name and value read from the `name` and `payload` keys inside
the event's data; any other custom-event yields zero protocol events. -/
theorem C8_custom_event_marker (tr : ToolCallTracker) (ev : RawEvent)
    (hk : ev.event = some "on_custom_event") :
    (ev.name = some internalEventMarker →
      translateEvent tr ev =
        Except.ok
          ([ProtocolEvent.custom ((ev.data.getD RawData.empty).cname)
              ((ev.data.getD RawData.empty).payload)], [], tr)) ∧
    (ev.name ≠ some internalEventMarker →
      translateEvent tr ev = Except.ok ([], [], tr)) := by
  have hred : translateEvent tr ev =
      Except.ok (handleCustomEvent tr ev (ev.data.getD RawData.empty)) := by
    unfold translateEvent
    rw [hk]
    dsimp only
    rw [show LangGraphEventType.ofString? "on_custom_event" =
      some LangGraphEventType.onCustomEvent from rfl]
  constructor
  · intro hname
    rw [hred]
    unfold handleCustomEvent
    rw [if_pos hname]
  · intro hname
    rw [hred]
    unfold handleCustomEvent
    rw [if_neg hname]

/-- Witness for C8: a marked custom event is forwarded; an unmarked one with
the same data is dropped. -/
theorem C8_custom_event_marker_witness :
    translateEvent ToolCallTracker.init
        { event := some "on_custom_event", name := some "agent_custom_event",
          data := some { cname := some (Json.str "chart_generated"),
                         payload := some (Json.obj [("type", Json.str "line")]) } } =
      Except.ok
        ([ProtocolEvent.custom (some (Json.str "chart_generated"))
            (some (Json.obj [("type", Json.str "line")]))], [], ToolCallTracker.init) ∧
    translateEvent ToolCallTracker.init
        { event := some "on_custom_event", name := some "unrelated_marker",
          data := some { cname := some (Json.str "chart_generated") } } =
      Except.ok ([], [], ToolCallTracker.init) := by
  constructor
  · exact (C8_custom_event_marker ToolCallTracker.init _ rfl).1 rfl
  · exact (C8_custom_event_marker ToolCallTracker.init _ rfl).2 (by simp [internalEventMarker])

/-- **C10** (nameless tool events default to "unknown").  A tool-start with
no top-level name opens a call under the key "unknown", and a subsequent
nameless tool-end correlates with it, emitting the normal
tool-call-ended/tool-call-result pair with the same call id. -/
theorem C10_nameless_tool_events (tr : ToolCallTracker) (ev1 ev2 : RawEvent)
    (h1k : ev1.event = some "on_tool_start") (h1n : ev1.name = none)
    (h2k : ev2.event = some "on_tool_end") (h2n : ev2.name = none) :
    ∃ callId tr1 tr2,
      translateEvent tr ev1 =
        Except.ok
          ([ProtocolEvent.toolCallStarted callId "unknown",
            ProtocolEvent.toolCallArgs callId
              (jsonDumps ((ev1.data.getD RawData.empty).input.getD (Json.obj [])))],
           [], tr1) ∧
      tr1.getCallId "unknown" = some callId ∧
      translateEvent tr1 ev2 =
        Except.ok
          ([ProtocolEvent.toolCallEnded callId,
            ProtocolEvent.toolCallResult callId callId
              (toolResultContent ((ev2.data.getD RawData.empty).output))],
           [], tr2) ∧
      tr2.getCallId "unknown" = none := by
  refine ⟨freshCallId tr.counter, (tr.startCall "unknown").2,
    ((tr.startCall "unknown").2.endCall "unknown").2, ?_, ?_, ?_, ?_⟩
  · unfold translateEvent
    rw [h1k]
    dsimp only
    rw [show LangGraphEventType.ofString? "on_tool_start" =
      some LangGraphEventType.onToolStart from rfl]
    dsimp only
    unfold handleToolStart
    rw [h1n]
    rfl
  · simp [ToolCallTracker.getCallId, ToolCallTracker.startCall, List.lookup]
  · have hlook : (tr.startCall "unknown").2.getCallId "unknown" =
        some (freshCallId tr.counter) := by
      simp [ToolCallTracker.getCallId, ToolCallTracker.startCall, List.lookup]
    unfold translateEvent
    rw [h2k]
    dsimp only
    rw [show LangGraphEventType.ofString? "on_tool_end" =
      some LangGraphEventType.onToolEnd from rfl]
    dsimp only
    unfold handleToolEnd
    rw [h2n]
    simp only [Option.getD_none]
    rw [show ((tr.startCall "unknown").2.endCall "unknown").1 =
      some (freshCallId tr.counter) from hlook]
    dsimp only
    rw [if_neg (freshCallId_ne_empty tr.counter)]
  · exact lookup_filter_ne

/-- Witness for C10: nameless start and end from the fresh tracker. -/
theorem C10_nameless_tool_events_witness :
    ({ event := some "on_tool_start" } : RawEvent).name = none ∧
    ({ event := some "on_tool_end" } : RawEvent).name = none ∧
    ∃ callId tr1 tr2,
      translateEvent ToolCallTracker.init { event := some "on_tool_start" } =
        Except.ok
          ([ProtocolEvent.toolCallStarted callId "unknown",
            ProtocolEvent.toolCallArgs callId (jsonDumps (Json.obj []))],
           [], tr1) ∧
      tr1.getCallId "unknown" = some callId ∧
      translateEvent tr1 { event := some "on_tool_end" } =
        Except.ok
          ([ProtocolEvent.toolCallEnded callId,
            ProtocolEvent.toolCallResult callId callId (toolResultContent none)],
           [], tr2) ∧
      tr2.getCallId "unknown" = none := by
  refine ⟨rfl, rfl, ?_⟩
  exact C10_nameless_tool_events ToolCallTracker.init _ _ rfl rfl rfl rfl

/-- The claim of C4 fails on `EventTranslator.translate_event`: a chain-start
event named "X" is translated to a `ThinkingTextMessageStartEvent`, which
carries no title at all — not a thinking-started with title "X". -/
theorem C4_chain_start_counterexample :
    translateEvent ToolCallTracker.init
        { event := some "on_chain_start", name := some "X" } ≠
      Except.ok ([ProtocolEvent.thinkingStarted (some "X")], [],
        ToolCallTracker.init) := by
  intro h
  have h0 : translateEvent ToolCallTracker.init
      { event := some "on_chain_start", name := some "X" } =
      Except.ok ([ProtocolEvent.thinkingStarted none], [], ToolCallTracker.init) := rfl
  rw [h0] at h
  simp at h

/-- **C4 (amended)** (chain-start translation).  For every chain-start raw
event the packages `EventTranslator` emits exactly one thinking-started
protocol event carrying no title, while the legacy `sse_advanced` translator
emits exactly one thinking-started whose title equals the event's top-level
name field, defaulting to "Unknown" when absent. -/
theorem C4_chain_start_thinking (tr : ToolCallTracker) (ev : RawEvent)
    (hk : ev.event = some "on_chain_start") :
    translateEvent tr ev =
      Except.ok ([ProtocolEvent.thinkingStarted none], [], tr) ∧
    sseTranslateEvent tr ev =
      Except.ok ([ProtocolEvent.thinkingStarted (some (ev.name.getD "Unknown"))],
        [], tr) := by
  constructor
  · unfold translateEvent
    rw [hk]
    dsimp only
    rw [show LangGraphEventType.ofString? "on_chain_start" =
      some LangGraphEventType.onChainStart from rfl]
  · unfold sseTranslateEvent
    rw [hk]
    dsimp only
    rw [show LangGraphEventType.ofString? "on_chain_start" =
      some LangGraphEventType.onChainStart from rfl]

/-- Witness for the amended C4 at a concrete named chain-start event. -/
theorem C4_chain_start_thinking_witness :
    translateEvent ToolCallTracker.init
        { event := some "on_chain_start", name := some "Planner" } =
      Except.ok ([ProtocolEvent.thinkingStarted none], [], ToolCallTracker.init) ∧
    sseTranslateEvent ToolCallTracker.init
        { event := some "on_chain_start", name := some "Planner" } =
      Except.ok ([ProtocolEvent.thinkingStarted (some "Planner")], [],
        ToolCallTracker.init) :=
  C4_chain_start_thinking ToolCallTracker.init _ rfl

/-- **C9** (tracker algebra).  `start_call` is total and returns an
identifier fresh w.r.t. every currently tracked id; a second `start_call`
for the same name overwrites the tracked id, so `get_call_id`/`end_call`
return the most recent id and the first id is no longer tracked anywhere
(unmatchable); `end_call` removes and returns the record when present, and
returns the absent signal — without raising and without changing the state —
when no open call exists for the name. -/
theorem C9_tracker_algebra (tr : ToolCallTracker) (n : String) (hwf : tr.wf) :
    (∀ p ∈ tr.activeCalls, p.2 ≠ (tr.startCall n).1) ∧
    ((tr.startCall n).2.getCallId n = some (tr.startCall n).1) ∧
    ((tr.startCall n).1 ≠ ((tr.startCall n).2.startCall n).1 ∧
      ((tr.startCall n).2.startCall n).2.getCallId n =
        some ((tr.startCall n).2.startCall n).1 ∧
      (((tr.startCall n).2.startCall n).2.endCall n).1 =
        some ((tr.startCall n).2.startCall n).1 ∧
      (∀ p ∈ ((tr.startCall n).2.startCall n).2.activeCalls,
        p.2 ≠ (tr.startCall n).1) ∧
      (((tr.startCall n).2.startCall n).2.endCall n).2.getCallId n = none) ∧
    (∀ cid, tr.getCallId n = some cid →
      (tr.endCall n).1 = some cid ∧ (tr.endCall n).2.getCallId n = none) ∧
    (tr.getCallId n = none →
      (tr.endCall n).1 = none ∧ (tr.endCall n).2 = tr) := by
  refine ⟨?_, ?_, ⟨?_, ?_, ?_, ?_, ?_⟩, ?_, ?_⟩
  · intro p hp h
    obtain ⟨m, hm, he⟩ := hwf p hp
    rw [he] at h
    have := freshCallId_injective h
    omega
  · simp [ToolCallTracker.getCallId, ToolCallTracker.startCall, List.lookup]
  · intro h
    have := freshCallId_injective h
    simp [ToolCallTracker.startCall] at this
  · simp [ToolCallTracker.getCallId, ToolCallTracker.startCall, List.lookup]
  · simp [ToolCallTracker.endCall, ToolCallTracker.startCall, List.lookup]
  · intro p hp h
    simp only [ToolCallTracker.startCall, List.mem_cons] at hp
    rcases hp with rfl | hp
    · have := freshCallId_injective h.symm
      simp at this
    · have hp2 := List.mem_of_mem_filter hp
      rw [List.mem_cons] at hp2
      rcases hp2 with rfl | hp2
      · have hbad := List.mem_filter.mp hp
        simp at hbad
      · obtain ⟨m, hm, he⟩ := hwf p (List.mem_of_mem_filter hp2)
        rw [he] at h
        have := freshCallId_injective h
        omega
  · exact lookup_filter_ne
  · intro cid h
    exact ⟨h, lookup_filter_ne⟩
  · intro h
    refine ⟨h, ?_⟩
    show ToolCallTracker.mk _ tr.counter = tr
    rw [filter_ne_eq_self (lookup_eq_none_forall h)]

/-- Witness for C9: the fresh tracker and the tool name "search". -/
theorem C9_tracker_algebra_witness :
    ToolCallTracker.init.wf ∧
    (ToolCallTracker.init.startCall "search").2.getCallId "search" =
      some (ToolCallTracker.init.startCall "search").1 ∧
    (ToolCallTracker.init.getCallId "search" = none →
      (ToolCallTracker.init.endCall "search").1 = none ∧
      (ToolCallTracker.init.endCall "search").2 = ToolCallTracker.init) := by
  have h := C9_tracker_algebra ToolCallTracker.init "search" ToolCallTracker.init_wf
  exact ⟨ToolCallTracker.init_wf, h.2.1, h.2.2.2.2⟩

/-! ### C2: tool-call pairing across arbitrary interleavings -/

def isToolStartRaw (ev : RawEvent) : Prop := ev.event = some "on_tool_start"

def isToolEndRaw (ev : RawEvent) : Prop := ev.event = some "on_tool_end"

/-- `event.get("name", "unknown")` as used by both tool handlers. -/
def rawToolName (ev : RawEvent) : String := ev.name.getD "unknown"

/-- `event_data.get("input", {})`. -/
def rawToolInput (ev : RawEvent) : Json :=
  (ev.data.getD RawData.empty).input.getD (Json.obj [])

/-- `event_data.get("output")`. -/
def rawToolOutput (ev : RawEvent) : Option Json :=
  (ev.data.getD RawData.empty).output

/-- The tool names of the tool-start events of a raw event list, in order. -/
def startNames (evs : List RawEvent) : List String :=
  evs.filterMap
    (fun ev => if ev.event = some "on_tool_start" then some (rawToolName ev) else none)

theorem not_toolStart_and_toolEnd {ev : RawEvent}
    (h1 : isToolStartRaw ev) (h2 : isToolEndRaw ev) : False := by
  unfold isToolStartRaw at h1
  unfold isToolEndRaw at h2
  rw [h1] at h2
  exact absurd (Option.some.inj h2) (by decide)

theorem startNames_cons_start {ev : RawEvent} (h : ev.event = some "on_tool_start")
    (rest : List RawEvent) :
    startNames (ev :: rest) = rawToolName ev :: startNames rest := by
  simp [startNames, List.filterMap_cons, h]

theorem startNames_cons_end {ev : RawEvent} (h : ev.event = some "on_tool_end")
    (rest : List RawEvent) :
    startNames (ev :: rest) = startNames rest := by
  simp only [startNames, List.filterMap_cons, h]
  rw [if_neg (by decide)]

theorem translateEvent_tool_start_eq (tr : ToolCallTracker) {ev : RawEvent}
    (h : ev.event = some "on_tool_start") :
    translateEvent tr ev =
      Except.ok
        ([ProtocolEvent.toolCallStarted (freshCallId tr.counter) (rawToolName ev),
          ProtocolEvent.toolCallArgs (freshCallId tr.counter)
            (jsonDumps (rawToolInput ev))],
         [], (tr.startCall (rawToolName ev)).2) := by
  unfold translateEvent
  rw [h]
  dsimp only
  rw [show LangGraphEventType.ofString? "on_tool_start" =
    some LangGraphEventType.onToolStart from rfl]
  dsimp only
  rfl

theorem translateEvent_tool_end_eq (tr : ToolCallTracker) {ev : RawEvent}
    (h : ev.event = some "on_tool_end") :
    translateEvent tr ev =
      Except.ok (handleToolEnd tr ev (ev.data.getD RawData.empty)) := by
  unfold translateEvent
  rw [h]
  dsimp only
  rw [show LangGraphEventType.ofString? "on_tool_end" =
    some LangGraphEventType.onToolEnd from rfl]

theorem handleToolEnd_absent {tr : ToolCallTracker} {ev : RawEvent} {d : RawData}
    (h : tr.getCallId (rawToolName ev) = none) :
    handleToolEnd tr ev d =
      ([], ["No active call found for tool: " ++ rawToolName ev],
        (tr.endCall (rawToolName ev)).2) := by
  simp only [handleToolEnd, ToolCallTracker.endCall]
  rw [show tr.activeCalls.lookup (ev.name.getD "unknown") = none from h]
  rfl

theorem handleToolEnd_present {tr : ToolCallTracker} {ev : RawEvent} {d : RawData}
    {cid : String} (h : tr.getCallId (rawToolName ev) = some cid) (hne : cid ≠ "") :
    handleToolEnd tr ev d =
      ([ProtocolEvent.toolCallEnded cid,
        ProtocolEvent.toolCallResult cid cid (toolResultContent d.output)],
       [], (tr.endCall (rawToolName ev)).2) := by
  simp only [handleToolEnd, ToolCallTracker.endCall]
  rw [show tr.activeCalls.lookup (ev.name.getD "unknown") = some cid from h]
  dsimp only
  rw [if_neg hne]
  rfl

theorem translateBlocks_cons_ok {tr tr' : ToolCallTracker} {ev : RawEvent}
    {outs : List ProtocolEvent} {logs : List String} (rest : List RawEvent)
    (h : translateEvent tr ev = Except.ok (outs, logs, tr')) :
    translateBlocks tr (ev :: rest) = (ev, outs) :: translateBlocks tr' rest := by
  simp only [translateBlocks, h]

theorem translateBlocks_cons_error {tr : ToolCallTracker} {ev : RawEvent}
    {err : PyError} (rest : List RawEvent)
    (h : translateEvent tr ev = Except.error err) :
    translateBlocks tr (ev :: rest) = (ev, []) :: translateBlocks tr rest := by
  simp only [translateBlocks, h]

/-- Both tool handlers return normally for every tracker state, so a tool
event never takes the adapter loop's exception path. -/
theorem translateEvent_tool_ok {ev : RawEvent} (tr : ToolCallTracker)
    (h : isToolStartRaw ev ∨ isToolEndRaw ev) :
    ∃ outs logs tr', translateEvent tr ev = Except.ok (outs, logs, tr') := by
  rcases h with h | h
  · exact ⟨_, _, _, translateEvent_tool_start_eq tr h⟩
  · rcases hh : handleToolEnd tr ev (ev.data.getD RawData.empty) with ⟨o, l, t⟩
    exact ⟨o, l, t, by rw [translateEvent_tool_end_eq tr h, hh]⟩

/-- Over tool events — where the loop never aborts — flattening the
per-event blocks recovers the adapter loop's output. -/
theorem translateBlocks_join (evs : List RawEvent) : ∀ tr,
    (∀ ev ∈ evs, isToolStartRaw ev ∨ isToolEndRaw ev) →
    ((translateBlocks tr evs).map Prod.snd).join = (processEvents tr evs).1 := by
  induction evs with
  | nil => intro tr _; simp [translateBlocks, processEvents]
  | cons ev rest ih =>
    intro tr hkinds
    obtain ⟨outs, logs, tr', h⟩ :=
      translateEvent_tool_ok tr (hkinds ev (List.mem_cons_self _ _))
    rw [translateBlocks_cons_ok rest h, processEvents_cons_ok rest h]
    simp [ih tr' (fun e he => hkinds e (List.mem_cons_of_mem _ he))]

/-- Ghost-assignment invariant for tool-call pairing: running the block loop
over tool events whose start names are pairwise distinct produces, for some
duplicate-free name-to-id assignment extending the given one, start blocks
that emit exactly started-then-args under their assigned id, and end blocks
that emit either nothing or exactly ended-then-result under the id assigned
to the same tool name. -/
theorem blocks_assignment (evs : List RawEvent) : ∀ (tr : ToolCallTracker)
    (A : List (String × String)),
    (∀ ev ∈ evs, isToolStartRaw ev ∨ isToolEndRaw ev) →
    (startNames evs).Nodup →
    (A.map Prod.fst).Nodup →
    (∀ n ∈ startNames evs, n ∉ A.map Prod.fst) →
    (∀ p ∈ tr.activeCalls, p ∈ A) →
    (∀ p ∈ A, p.2 ≠ "") →
    ∃ A' : List (String × String),
      (A'.map Prod.fst).Nodup ∧
      (∀ p ∈ A, p ∈ A') ∧
      (∀ ev outs, (ev, outs) ∈ translateBlocks tr evs →
        (isToolStartRaw ev →
          ∃ id, outs = [ProtocolEvent.toolCallStarted id (rawToolName ev),
              ProtocolEvent.toolCallArgs id (jsonDumps (rawToolInput ev))] ∧
            (rawToolName ev, id) ∈ A') ∧
        (isToolEndRaw ev →
          outs = [] ∨
          ∃ id, outs = [ProtocolEvent.toolCallEnded id,
              ProtocolEvent.toolCallResult id id
                (toolResultContent (rawToolOutput ev))] ∧
            (rawToolName ev, id) ∈ A')) := by
  induction evs with
  | nil =>
    intro tr A _ _ hAnd _ _ _
    exact ⟨A, hAnd, fun p hp => hp, fun ev outs h => by simp [translateBlocks] at h⟩
  | cons ev rest ih =>
    intro tr A hkinds hnodup hAnd hnotin hsub hne
    rcases hkinds ev (List.mem_cons_self _ _) with hst | hen
    · -- head is a tool-start
      have htrans := translateEvent_tool_start_eq tr hst
      have hblocks := translateBlocks_cons_ok rest htrans
      have hsn := startNames_cons_start hst rest
      rw [hsn] at hnodup hnotin
      have hnodup' : (startNames rest).Nodup := (List.nodup_cons.mp hnodup).2
      have hhead : rawToolName ev ∉ startNames rest := (List.nodup_cons.mp hnodup).1
      have hnA : rawToolName ev ∉ A.map Prod.fst := hnotin _ (List.mem_cons_self _ _)
      obtain ⟨A', hA'nd, hA'ext, hA'blocks⟩ :=
        ih (tr.startCall (rawToolName ev)).2
          ((rawToolName ev, freshCallId tr.counter) :: A)
          (fun e he => hkinds e (List.mem_cons_of_mem _ he))
          hnodup'
          (by
            simp only [List.map_cons, List.nodup_cons]
            exact ⟨hnA, hAnd⟩)
          (by
            intro m hm
            simp only [List.map_cons, List.mem_cons]
            rintro (rfl | hmem)
            · exact hhead hm
            · exact hnotin m (List.mem_cons_of_mem _ hm) hmem)
          (by
            intro p hp
            simp only [ToolCallTracker.startCall, List.mem_cons] at hp
            rcases hp with rfl | hp
            · exact List.mem_cons_self _ _
            · exact List.mem_cons_of_mem _ (hsub p (List.mem_of_mem_filter hp)))
          (by
            intro p hp
            rcases List.mem_cons.mp hp with rfl | hp
            · exact freshCallId_ne_empty tr.counter
            · exact hne p hp)
      refine ⟨A', hA'nd, fun p hp => hA'ext p (List.mem_cons_of_mem _ hp), ?_⟩
      intro ev0 outs0 hmem
      rw [hblocks] at hmem
      rcases List.mem_cons.mp hmem with heq | hmem0
      · have hev0 : ev0 = ev := congrArg Prod.fst heq
        have houts0 : outs0 =
            [ProtocolEvent.toolCallStarted (freshCallId tr.counter) (rawToolName ev),
              ProtocolEvent.toolCallArgs (freshCallId tr.counter)
                (jsonDumps (rawToolInput ev))] := congrArg Prod.snd heq
        subst hev0
        constructor
        · intro _
          exact ⟨freshCallId tr.counter, houts0, hA'ext _ (List.mem_cons_self _ _)⟩
        · intro hend
          exact absurd hend (fun h => not_toolStart_and_toolEnd hst h)
      · exact hA'blocks ev0 outs0 hmem0
    · -- head is a tool-end
      have hsn := startNames_cons_end hen rest
      rw [hsn] at hnodup hnotin
      rcases hlook : tr.getCallId (rawToolName ev) with _ | cid
      · -- orphan end: zero events
        have htrans := translateEvent_tool_end_eq tr hen
        rw [handleToolEnd_absent hlook] at htrans
        have hblocks := translateBlocks_cons_ok rest htrans
        obtain ⟨A', hA'nd, hA'ext, hA'blocks⟩ :=
          ih (tr.endCall (rawToolName ev)).2 A
            (fun e he => hkinds e (List.mem_cons_of_mem _ he))
            hnodup hAnd hnotin
            (by
              intro p hp
              simp only [ToolCallTracker.endCall] at hp
              exact hsub p (List.mem_of_mem_filter hp))
            hne
        refine ⟨A', hA'nd, hA'ext, ?_⟩
        intro ev0 outs0 hmem
        rw [hblocks] at hmem
        rcases List.mem_cons.mp hmem with heq | hmem0
        · have hev0 : ev0 = ev := congrArg Prod.fst heq
          have houts0 : outs0 = [] := congrArg Prod.snd heq
          subst hev0
          constructor
          · intro hstart
            exact absurd hstart (fun h => not_toolStart_and_toolEnd h hen)
          · intro _
            exact Or.inl houts0
        · exact hA'blocks ev0 outs0 hmem0
      · -- matched end
        have hmemA : (rawToolName ev, cid) ∈ A := hsub _ (mem_of_lookup_eq_some hlook)
        have hcidne : cid ≠ "" := hne _ hmemA
        have htrans := translateEvent_tool_end_eq tr hen
        rw [handleToolEnd_present hlook hcidne] at htrans
        have hblocks := translateBlocks_cons_ok rest htrans
        obtain ⟨A', hA'nd, hA'ext, hA'blocks⟩ :=
          ih (tr.endCall (rawToolName ev)).2 A
            (fun e he => hkinds e (List.mem_cons_of_mem _ he))
            hnodup hAnd hnotin
            (by
              intro p hp
              simp only [ToolCallTracker.endCall] at hp
              exact hsub p (List.mem_of_mem_filter hp))
            hne
        refine ⟨A', hA'nd, hA'ext, ?_⟩
        intro ev0 outs0 hmem
        rw [hblocks] at hmem
        rcases List.mem_cons.mp hmem with heq | hmem0
        · have hev0 : ev0 = ev := congrArg Prod.fst heq
          have houts0 : outs0 =
              [ProtocolEvent.toolCallEnded cid,
                ProtocolEvent.toolCallResult cid cid
                  (toolResultContent (rawToolOutput ev))] := congrArg Prod.snd heq
          subst hev0
          constructor
          · intro hstart
            exact absurd hstart (fun h => not_toolStart_and_toolEnd h hen)
          · intro _
            exact Or.inr ⟨cid, houts0, hA'ext _ hmemA⟩
        · exact hA'blocks ev0 outs0 hmem0

/-- **C2** (tool-call pairing).  Over any interleaving of tool-start and
tool-end raw events whose start tool names are pairwise distinct, the
translator's output (the concatenation of the per-event blocks) is such that
every tool-start block is exactly tool-call-started immediately followed by
tool-call-args with the same call id, and every tool-call-ended emitted for a
tool-end of the same tool name carries the call id of that name's
tool-call-started, with the tool-call-result of its block carrying the same
id. -/
theorem C2_tool_call_pairing (evs : List RawEvent)
    (hkinds : ∀ ev ∈ evs, isToolStartRaw ev ∨ isToolEndRaw ev)
    (hnodup : (startNames evs).Nodup) :
    ((translateBlocks ToolCallTracker.init evs).map Prod.snd).join =
      (processEvents ToolCallTracker.init evs).1 ∧
    (∀ ev outs, (ev, outs) ∈ translateBlocks ToolCallTracker.init evs →
      isToolStartRaw ev →
      ∃ id, outs = [ProtocolEvent.toolCallStarted id (rawToolName ev),
        ProtocolEvent.toolCallArgs id (jsonDumps (rawToolInput ev))]) ∧
    (∀ evS outsS evE outsE idS idE,
      (evS, outsS) ∈ translateBlocks ToolCallTracker.init evs →
      (evE, outsE) ∈ translateBlocks ToolCallTracker.init evs →
      isToolStartRaw evS → isToolEndRaw evE →
      rawToolName evE = rawToolName evS →
      ProtocolEvent.toolCallStarted idS (rawToolName evS) ∈ outsS →
      ProtocolEvent.toolCallEnded idE ∈ outsE →
      idE = idS ∧
      outsE = [ProtocolEvent.toolCallEnded idS,
        ProtocolEvent.toolCallResult idS idS
          (toolResultContent (rawToolOutput evE))]) := by
  obtain ⟨A', hnd, -, hblocks⟩ :=
    blocks_assignment evs ToolCallTracker.init [] hkinds hnodup (by simp)
      (by intro n hn; simp)
      (by intro p hp; simp [ToolCallTracker.init] at hp)
      (by intro p hp; simp at hp)
  refine ⟨translateBlocks_join evs ToolCallTracker.init hkinds, ?_, ?_⟩
  · intro ev outs hmem hstart
    obtain ⟨id, hsh, -⟩ := (hblocks ev outs hmem).1 hstart
    exact ⟨id, hsh⟩
  · intro evS outsS evE outsE idS idE hmemS hmemE hstart hend hname hinS hinE
    obtain ⟨id, hshS, hAS⟩ := (hblocks evS outsS hmemS).1 hstart
    rcases (hblocks evE outsE hmemE).2 hend with hnil | ⟨id2, hshE, hAE⟩
    · rw [hnil] at hinE
      simp at hinE
    · rw [hshS] at hinS
      simp only [List.mem_cons, List.not_mem_nil, or_false] at hinS
      have hidS : idS = id := by
        rcases hinS with h1 | h1
        · exact (ProtocolEvent.toolCallStarted.injEq _ _ _ _ ▸ h1).1
        · exact absurd h1 (by simp)
      rw [hshE] at hinE
      simp only [List.mem_cons, List.not_mem_nil, or_false] at hinE
      have hidE : idE = id2 := by
        rcases hinE with h1 | h1
        · exact ProtocolEvent.toolCallEnded.injEq _ _ ▸ h1
        · exact absurd h1 (by simp)
      rw [hname] at hAE
      have hid2 : id2 = id := keys_nodup_mem_unique hnd hAE hAS
      subst hidS
      subst hidE
      subst hid2
      exact ⟨rfl, hshE⟩

/-- Witness for C2: the interleaving start("search"), start("calc"),
end("search"), end("calc") — two distinct in-flight tools. -/
theorem C2_tool_call_pairing_witness :
    (∀ ev ∈ ([{ event := some "on_tool_start", name := some "search" },
              { event := some "on_tool_start", name := some "calc" },
              { event := some "on_tool_end", name := some "search" },
              { event := some "on_tool_end", name := some "calc" }] :
        List RawEvent), isToolStartRaw ev ∨ isToolEndRaw ev) ∧
    (startNames [{ event := some "on_tool_start", name := some "search" },
                 { event := some "on_tool_start", name := some "calc" },
                 { event := some "on_tool_end", name := some "search" },
                 { event := some "on_tool_end", name := some "calc" }]).Nodup ∧
    (∀ ev outs,
      (ev, outs) ∈ translateBlocks ToolCallTracker.init
        [{ event := some "on_tool_start", name := some "search" },
         { event := some "on_tool_start", name := some "calc" },
         { event := some "on_tool_end", name := some "search" },
         { event := some "on_tool_end", name := some "calc" }] →
      isToolStartRaw ev →
      ∃ id, outs = [ProtocolEvent.toolCallStarted id (rawToolName ev),
        ProtocolEvent.toolCallArgs id (jsonDumps (rawToolInput ev))]) := by
  have hkinds : ∀ ev ∈ ([{ event := some "on_tool_start", name := some "search" },
      { event := some "on_tool_start", name := some "calc" },
      { event := some "on_tool_end", name := some "search" },
      { event := some "on_tool_end", name := some "calc" }] : List RawEvent),
      isToolStartRaw ev ∨ isToolEndRaw ev := by
    intro ev h
    rcases List.mem_cons.mp h with rfl | h
    · exact Or.inl rfl
    rcases List.mem_cons.mp h with rfl | h
    · exact Or.inl rfl
    rcases List.mem_cons.mp h with rfl | h
    · exact Or.inr rfl
    rcases List.mem_cons.mp h with rfl | h
    · exact Or.inr rfl
    simp at h
  have hnodup : (startNames [{ event := some "on_tool_start", name := some "search" },
      { event := some "on_tool_start", name := some "calc" },
      { event := some "on_tool_end", name := some "search" },
      { event := some "on_tool_end", name := some "calc" }]).Nodup := by
    rw [show startNames [{ event := some "on_tool_start", name := some "search" },
      { event := some "on_tool_start", name := some "calc" },
      { event := some "on_tool_end", name := some "search" },
      { event := some "on_tool_end", name := some "calc" }] = ["search", "calc"]
      from rfl]
    decide
  exact ⟨hkinds, hnodup,
    (C2_tool_call_pairing _ hkinds hnodup).2.1⟩
